import Mathlib

/-!
Shallow embedding of `backends.go` from the `token_manager` repository.

The repository's code is the `redisBackend` methods; the `go-redis` client it
calls is an external collaborator, so it is modelled as a record of operations
(`ClientOps`) over an abstract state `σ`.  Each operation returns the state
after the call together with an `Except Err` result: on an error the state
component records whatever the remote side ended up in.  A concrete pure model
of Redis semantics (`idealOps` over `Ideal`) instantiates the record for the
claims that depend on the store's behaviour.

Go `time.Time` values are modelled as integer nanoseconds since the epoch
(`Int`, unbounded, which is exact for the arithmetic the code performs:
`now.Add(d).Sub(now)` is exactly `d` and cannot saturate), and `Unix()` is
floor division by 10^9.  The unbounded `for` loop of `saveUserToken` is
embedded with a fuel parameter; running out of fuel yields `none`
("still looping"), which is distinct from every returned result.
-/

namespace TokenManager

/-- Error values visible in the embedded code: `redis.Nil`, the package's
`ErrTokenNotFound`, transport/backend failures, and generator failures. -/
inductive Err where
  | redisNil : Err
  | tokenNotFound : Err
  | fail : String → Err
  | gen : String → Err
deriving DecidableEq

/-- `bUserTokenInfo` from `backends.go`. -/
structure bUserTokenInfo where
  tokenString : String
  tokenData : String
deriving DecidableEq

/-- The surface of the redis client used by `backends.go`:
`SetNX`, `Get`, `Unlink`, `Exists`, `ZRemRangeByScore`, `ZRange` (full range),
`ZRem`, `ZAdd`, `ZScore`.  Return values the Go code ignores are elided to
`Unit`; `Exists` returns a count; `ZRange` is only ever called with `0, -1`
so it takes no range arguments. -/
structure ClientOps (σ : Type) where
  setNX : σ → String → String → Int → σ × Except Err Bool
  get : σ → String → σ × Except Err String
  unlink : σ → List String → σ × Except Err Unit
  existsCount : σ → String → σ × Except Err Int
  zRemRangeByScore : σ → String → Int → Int → σ × Except Err Unit
  zRange : σ → String → σ × Except Err (List String)
  zRem : σ → String → List String → σ × Except Err Unit
  zAdd : σ → String → String → Int → σ × Except Err Unit
  zScore : σ → String → String → σ × Except Err Int

variable {σ : Type}

/-- `getUserTokenKey`: `strings.Join(["USER_TOKENS", userId], ":")`. -/
def getUserTokenKey (userId : String) : String := "USER_TOKENS:" ++ userId

/-- `getTokenKey`: `strings.Join(["TOKENS", tokenString], ":")`. -/
def getTokenKey (tokenString : String) : String := "TOKENS:" ++ tokenString

/-- `time.Time.Unix()` on a time modelled as nanoseconds: floor seconds. -/
def unixOf (t : Int) : Int := Int.fdiv t 1000000000

/-- `redisBackend.saveToken`: `SetNX` on the token key. -/
def saveToken (c : ClientOps σ) (s : σ) (token value : String) (expire : Int) :
    σ × Except Err Bool :=
  c.setNX s (getTokenKey token) value expire

/-- `redisBackend.loadToken`: `Get`, mapping `redis.Nil` to `ErrTokenNotFound`. -/
def loadToken (c : ClientOps σ) (s : σ) (token : String) : σ × Except Err String :=
  match c.get s (getTokenKey token) with
  | (s1, .error e) =>
      if e = .redisNil then (s1, .error .tokenNotFound) else (s1, .error e)
  | (s1, .ok v) => (s1, .ok v)

/-- `redisBackend.deleteToken`: `Unlink` of the token keys. -/
def deleteToken (c : ClientOps σ) (s : σ) (tokens : List String) : σ × Except Err Unit :=
  c.unlink s (tokens.map getTokenKey)

/-- `redisBackend.isTokenExist`: `Exists`, count `<= 0` means absent. -/
def isTokenExist (c : ClientOps σ) (s : σ) (token : String) : σ × Except Err Bool :=
  match c.existsCount s (getTokenKey token) with
  | (s1, .error e) => (s1, .error e)
  | (s1, .ok count) => (s1, .ok (decide (0 < count)))

/-- The fast path of `cleanupUserToken`:
`ZRemRangeByScore(key, "0", now)`, i.e. the inclusive score range `[0, now]`.
This is the spec's `removeExpiredByScore(userId, nowEpoch)`. -/
def removeExpiredByScore (c : ClientOps σ) (s : σ) (userId : String) (nowEpoch : Int) :
    σ × Except Err Unit :=
  c.zRemRangeByScore s (getUserTokenKey userId) 0 nowEpoch

/-- The slow-path scan of `cleanupUserToken`: walk the surviving members in
order, `isTokenExist` each one, and accumulate (in order) those whose store
record is gone; an error from `isTokenExist` aborts the whole cleanup. -/
def cleanupScan (c : ClientOps σ) : σ → List String → List String → σ × Except Err (List String)
  | s, acc, [] => (s, .ok acc)
  | s, acc, t :: rest =>
    match isTokenExist c s t with
    | (s1, .error e) => (s1, .error e)
    | (s1, .ok ex) =>
        if ex then cleanupScan c s1 acc rest
        else cleanupScan c s1 (acc ++ [t]) rest

/-- `redisBackend.cleanupUserToken`: fast path, then `ZRange 0 -1`, then the
slow-path scan, then `ZRem` of the collected members (issued even when none
were collected; the ideal model treats an empty `ZRem` as a no-op success,
abstracting a client-library arity detail external to this repository). -/
def cleanupUserToken (c : ClientOps σ) (s : σ) (now : Int) (userId : String) :
    σ × Except Err Unit :=
  let key := getUserTokenKey userId
  match removeExpiredByScore c s userId now with
  | (s1, .error e) => (s1, .error e)
  | (s1, .ok _) =>
    match c.zRange s1 key with
    | (s2, .error e) => (s2, .error e)
    | (s2, .ok userTokens) =>
      match cleanupScan c s2 [] userTokens with
      | (s3, .error e) => (s3, .error e)
      | (s3, .ok tokensForDelete) => c.zRem s3 key tokensForDelete

/-- The `for {}` loop of `redisBackend.saveUserToken`, with fuel.  Per
iteration `i`: read the clock, compute `expire = now + expiresIn`, call the
generator, attempt `saveToken` with `expire.Sub(now)`, and on a successful
create `ZAdd` the token with score `expire.Unix()`; if the `ZAdd` fails,
issue the compensating `deleteToken` (its result discarded, as in
`_ = r.deleteToken(ctx, token)`) and return the `ZAdd` error; on a collision
(`ok = false`) loop again with the next generator output. -/
def saveUserTokenLoop (c : ClientOps σ) (clock : Nat → Int) (key : String)
    (genToken : Nat → Except Err String) (value : String) (expiresIn : Int) :
    Nat → Nat → σ → σ × Option (Except Err String)
  | 0, _, s => (s, none)
  | fuel + 1, i, s =>
    let now := clock i
    let expire := now + expiresIn
    match genToken i with
    | .error e => (s, some (.error e))
    | .ok token =>
      match saveToken c s token value (expire - now) with
      | (s1, .error e) => (s1, some (.error e))
      | (s1, .ok ok) =>
          if ok then
            match c.zAdd s1 key token (unixOf expire) with
            | (s2, .error e) => ((deleteToken c s2 [token]).1, some (.error e))
            | (s2, .ok _) => (s2, some (.ok token))
          else
            saveUserTokenLoop c clock key genToken value expiresIn fuel (i + 1) s1

/-- `redisBackend.saveUserToken`: best-effort cleanup (`_ =`), then the loop. -/
def saveUserToken (c : ClientOps σ) (clock : Nat → Int) (cleanupNow : Int) (userId : String)
    (genToken : Nat → Except Err String) (value : String) (expiresIn : Int) (fuel : Nat)
    (s : σ) : σ × Option (Except Err String) :=
  saveUserTokenLoop c clock (getUserTokenKey userId) genToken value expiresIn fuel 0
    (cleanupUserToken c s cleanupNow userId).1

/-- `redisBackend.loadUserToken` after its cleanup call: `ZScore`; on
`redis.Nil` delete the token from the store and return `ErrTokenNotFound`;
otherwise `loadToken` and build the view. -/
def loadUserTokenCore (c : ClientOps σ) (s : σ) (userId tokenString : String) :
    σ × Except Err bUserTokenInfo :=
  let key := getUserTokenKey userId
  match c.zScore s key tokenString with
  | (s1, .error e) =>
      if e = .redisNil then ((deleteToken c s1 [tokenString]).1, .error .tokenNotFound)
      else (s1, .error e)
  | (s1, .ok _) =>
    match loadToken c s1 tokenString with
    | (s2, .error e) => (s2, .error e)
    | (s2, .ok data) => (s2, .ok { tokenString := tokenString, tokenData := data })

/-- `redisBackend.loadUserToken`: best-effort cleanup, then the core. -/
def loadUserToken (c : ClientOps σ) (s : σ) (cleanupNow : Int) (userId tokenString : String) :
    σ × Except Err bUserTokenInfo :=
  loadUserTokenCore c (cleanupUserToken c s cleanupNow userId).1 userId tokenString

/-- The member loop of `loadUserTokenList`: resolve each member through the
full `loadUserToken` (which re-runs cleanup with its own clock reading,
indexed here by `clocks`); a member whose resolution errors is skipped. -/
def loadListLoop (c : ClientOps σ) (clocks : Nat → Int) (userId : String) :
    List String → Nat → σ → List bUserTokenInfo → σ × List bUserTokenInfo
  | [], _, s, acc => (s, acc)
  | t :: rest, i, s, acc =>
    match loadUserToken c s (clocks i) userId t with
    | (s1, .error _) => loadListLoop c clocks userId rest (i + 1) s1 acc
    | (s1, .ok info) => loadListLoop c clocks userId rest (i + 1) s1 (acc ++ [info])

/-- `redisBackend.loadUserTokenList` after its cleanup call: `ZRange 0 -1`,
then the member loop; the call itself returns `.ok` once the range read
succeeded. -/
def loadUserTokenListCore (c : ClientOps σ) (clocks : Nat → Int) (s : σ) (userId : String) :
    σ × Except Err (List bUserTokenInfo) :=
  match c.zRange s (getUserTokenKey userId) with
  | (s1, .error e) => (s1, .error e)
  | (s1, .ok tokenStringList) =>
    let r := loadListLoop c clocks userId tokenStringList 0 s1 []
    (r.1, .ok r.2)

/-- `redisBackend.loadUserTokenList`: best-effort cleanup (clock reading
`clocks 0`), then the core with the later clock readings. -/
def loadUserTokenList (c : ClientOps σ) (clocks : Nat → Int) (s : σ) (userId : String) :
    σ × Except Err (List bUserTokenInfo) :=
  loadUserTokenListCore c (fun i => clocks (i + 1))
    (cleanupUserToken c s (clocks 0) userId).1 userId

/-- Modelled from the spec: `deleteUserToken` is declared in the `backend`
interface of `backends.go` but its implementation is absent from the sources;
spec §4.3 says it "removes the given tokens from both the index and
TokenStore; absence in either location is not an error (idempotent)", using
the index capability `removeMembers` (`ZRem`) and the store's `deleteToken`. -/
def deleteUserToken (c : ClientOps σ) (s : σ) (userId : String) (tokens : List String) :
    σ × Except Err Unit :=
  match c.zRem s (getUserTokenKey userId) tokens with
  | (s1, .error e) => (s1, .error e)
  | (s1, .ok _) => deleteToken c s1 tokens

/-! ## A pure model of the Redis semantics the code relies on

`kv` is the string keyspace (token records; TTL expiry is an external event,
not modelled inside a single operation), `zs` the sorted-set entries as flat
`(setKey, member, score)` triples.  Member order inside a set is abstracted
(the spec: "order not semantically significant"). -/

/-- The pure Redis state. -/
structure Ideal where
  kv : List (String × String)
  zs : List (String × String × Int)
deriving DecidableEq

/-- Lookup in the keyspace. -/
def kvGet (kv : List (String × String)) (k : String) : Option String :=
  (kv.find? (fun p => decide (p.1 = k))).map Prod.snd

/-- Key presence in the keyspace. -/
def kvHas (kv : List (String × String)) (k : String) : Bool := (kvGet kv k).isSome

/-- Ideal `SetNX`: create iff the key is absent (TTL is external, not kept). -/
def idealSetNX (s : Ideal) (k v : String) (_ttl : Int) : Ideal × Except Err Bool :=
  if kvHas s.kv k then (s, .ok false) else ({ s with kv := s.kv ++ [(k, v)] }, .ok true)

/-- Ideal `Get`: `redis.Nil` on a missing key. -/
def idealGet (s : Ideal) (k : String) : Ideal × Except Err String :=
  match kvGet s.kv k with
  | some v => (s, .ok v)
  | none => (s, .error .redisNil)

/-- Ideal `Unlink`: unconditional removal of the given keys. -/
def idealUnlink (s : Ideal) (ks : List String) : Ideal × Except Err Unit :=
  ({ s with kv := s.kv.filter (fun p => decide (p.1 ∉ ks)) }, .ok ())

/-- Ideal `Exists`: count of present keys among the one queried. -/
def idealExistsCount (s : Ideal) (k : String) : Ideal × Except Err Int :=
  (s, .ok (if kvHas s.kv k then 1 else 0))

/-- Ideal `ZRemRangeByScore`: drop the set's entries inside `[lo, hi]`. -/
def idealZRemRangeByScore (s : Ideal) (k : String) (lo hi : Int) : Ideal × Except Err Unit :=
  ({ s with zs := s.zs.filter (fun e => decide (¬ (e.1 = k ∧ lo ≤ e.2.2 ∧ e.2.2 ≤ hi))) },
    .ok ())

/-- Ideal `ZRange 0 -1`: all members of the set. -/
def idealZRange (s : Ideal) (k : String) : Ideal × Except Err (List String) :=
  (s, .ok ((s.zs.filter (fun e => decide (e.1 = k))).map (fun e => e.2.1)))

/-- Ideal `ZRem`: drop the given members of the set. -/
def idealZRem (s : Ideal) (k : String) (ms : List String) : Ideal × Except Err Unit :=
  ({ s with zs := s.zs.filter (fun e => decide (¬ (e.1 = k ∧ e.2.1 ∈ ms))) }, .ok ())

/-- Ideal `ZAdd`: upsert the member with the given score. -/
def idealZAdd (s : Ideal) (k m : String) (sc : Int) : Ideal × Except Err Unit :=
  ({ s with zs := (s.zs.filter (fun e => decide (¬ (e.1 = k ∧ e.2.1 = m)))) ++ [(k, m, sc)] },
    .ok ())

/-- Ideal `ZScore`: `redis.Nil` when the member is absent. -/
def idealZScore (s : Ideal) (k m : String) : Ideal × Except Err Int :=
  match s.zs.find? (fun e => decide (e.1 = k ∧ e.2.1 = m)) with
  | some e => (s, .ok e.2.2)
  | none => (s, .error .redisNil)

/-- The ideal client: every operation succeeds and follows Redis semantics. -/
def idealOps : ClientOps Ideal where
  setNX := idealSetNX
  get := idealGet
  unlink := idealUnlink
  existsCount := idealExistsCount
  zRemRangeByScore := idealZRemRangeByScore
  zRange := idealZRange
  zRem := idealZRem
  zAdd := idealZAdd
  zScore := idealZScore

/-- The keep-predicate describing a user's index after an ideal cleanup:
an entry of that user survives iff its score is outside `[0, now]` and its
store record is present; entries of other sets are untouched. -/
def cleanupKeep (kv : List (String × String)) (key : String) (now : Int) :
    String × String × Int → Bool :=
  fun e =>
    if e.1 = key then decide (¬ (0 ≤ e.2.2 ∧ e.2.2 ≤ now)) && kvHas kv (getTokenKey e.2.1)
    else true

/-- An ideal client whose `ZAdd` always fails with a backend error
(used to exercise the index-insert failure path of issuance). -/
def zAddFailOps : ClientOps Ideal :=
  { idealOps with zAdd := fun s _ _ _ => (s, .error (.fail "zadd")) }

/-- Like `zAddFailOps`, but the compensating `Unlink` also reports a backend
error while its removal still takes effect remotely (a lost response): the
rollback delete fails from the caller's point of view. -/
def rollbackLostOps : ClientOps Ideal :=
  { zAddFailOps with unlink := fun s ks => ((idealUnlink s ks).1, .error (.fail "unlink")) }

/-- An ideal client whose `ZRemRangeByScore` always fails, so every cleanup
pass fails at its first step. -/
def cleanupFailOps : ClientOps Ideal :=
  { idealOps with zRemRangeByScore := fun s _ _ _ => (s, .error (.fail "zremrange")) }

/-- A generator that produces one (colliding) candidate and then fails. -/
def genOnceThenFail : Nat → Except Err String :=
  fun j => if j = 0 then .ok "t" else .error (.gen "boom")

/-! ## Helper lemmas about the ideal model -/

theorem idealOps_setNX : idealOps.setNX = idealSetNX := rfl

theorem idealOps_get : idealOps.get = idealGet := rfl

theorem idealOps_unlink : idealOps.unlink = idealUnlink := rfl

theorem idealOps_existsCount : idealOps.existsCount = idealExistsCount := rfl

theorem idealOps_zRemRangeByScore : idealOps.zRemRangeByScore = idealZRemRangeByScore := rfl

theorem idealOps_zRange : idealOps.zRange = idealZRange := rfl

theorem idealOps_zRem : idealOps.zRem = idealZRem := rfl

theorem idealOps_zAdd : idealOps.zAdd = idealZAdd := rfl

theorem idealOps_zScore : idealOps.zScore = idealZScore := rfl

/-- `isTokenExist` on the ideal client is pure key presence. -/
theorem isTokenExist_ideal (s : Ideal) (t : String) :
    isTokenExist idealOps s t = (s, .ok (kvHas s.kv (getTokenKey t))) := by
  cases h : kvHas s.kv (getTokenKey t) <;>
    simp [isTokenExist, idealOps_existsCount, idealExistsCount, h]

/-- The slow-path scan on the ideal client changes no state and collects, in
order, exactly the members without a store record. -/
theorem cleanupScan_ideal (s : Ideal) (toks : List String) (acc : List String) :
    cleanupScan idealOps s acc toks =
      (s, .ok (acc ++ toks.filter (fun t => !kvHas s.kv (getTokenKey t)))) := by
  induction toks generalizing acc with
  | nil => simp [cleanupScan]
  | cons t rest ih =>
      rw [cleanupScan, isTokenExist_ideal]
      cases h : kvHas s.kv (getTokenKey t) <;>
        simp [h, List.filter_cons, ih, List.append_assoc]

/-- Membership in the slow path's collected deletion list. -/
theorem mem_scan_del_iff (s : Ideal) (key : String) (now : Int) (m : String) :
    m ∈ ((((s.zs.filter (fun e => decide (¬ (e.1 = key ∧ 0 ≤ e.2.2 ∧ e.2.2 ≤ now)))).filter
          (fun e => decide (e.1 = key))).map (fun e => e.2.1)).filter
          (fun t => !kvHas s.kv (getTokenKey t)))
      ↔ (∃ e, e ∈ s.zs ∧ e.1 = key ∧ ¬ (0 ≤ e.2.2 ∧ e.2.2 ≤ now) ∧ e.2.1 = m) ∧
          kvHas s.kv (getTokenKey m) = false := by
  simp only [List.mem_filter, List.mem_map, decide_eq_true_eq, Bool.not_eq_true']
  constructor
  · rintro ⟨⟨e, ⟨⟨hmem, hout⟩, hkey⟩, hm⟩, hkv⟩
    exact ⟨⟨e, hmem, hkey, fun hr => hout ⟨hkey, hr.1, hr.2⟩, hm⟩, hkv⟩
  · rintro ⟨⟨e, hmem, hkey, hout, hm⟩, hkv⟩
    exact ⟨⟨e, ⟨⟨hmem, fun hr => hout ⟨hr.2.1, hr.2.2⟩⟩, hkey⟩, hm⟩, hkv⟩

/-- Closed form of `cleanupUserToken` on the ideal client. -/
theorem cleanupUserToken_ideal (s : Ideal) (now : Int) (u : String) :
    cleanupUserToken idealOps s now u =
      ({ kv := s.kv, zs := s.zs.filter (cleanupKeep s.kv (getUserTokenKey u) now) },
        .ok ()) := by
  simp only [cleanupUserToken, removeExpiredByScore, idealOps_zRemRangeByScore,
    idealZRemRangeByScore, idealOps_zRange, idealZRange]
  rw [cleanupScan_ideal]
  simp only [idealOps_zRem, idealZRem, List.nil_append]
  refine congrArg (fun zs => (({ kv := s.kv, zs := zs } : Ideal), (Except.ok () : Except Err Unit))) ?_
  rw [List.filter_filter]
  refine List.filter_congr ?_
  intro e he
  by_cases hk : e.1 = getUserTokenKey u
  · by_cases hr : 0 ≤ e.2.2 ∧ e.2.2 ≤ now
    · simp [cleanupKeep, hk, hr]
    · by_cases hkv : kvHas s.kv (getTokenKey e.2.1) = true
      · have hdel : ¬ (e.2.1 ∈ _) := fun hmem =>
          by simpa [hkv] using (mem_scan_del_iff s (getUserTokenKey u) now e.2.1).mp hmem
        simp [cleanupKeep, hk, hr, hkv, hdel]
      · have hkv' : kvHas s.kv (getTokenKey e.2.1) = false := by
          simpa using hkv
        have hdel : e.2.1 ∈ _ := (mem_scan_del_iff s (getUserTokenKey u) now e.2.1).mpr
          ⟨⟨e, he, hk, hr, rfl⟩, hkv'⟩
        have hL : decide (¬ (e.1 = getUserTokenKey u ∧ e.2.1 ∈ _)) = false :=
          decide_eq_false (fun hn => hn ⟨hk, hdel⟩)
        rw [hL]
        simp [cleanupKeep, hk, hkv']
  · simp [cleanupKeep, hk]

/-- Filtering twice with one predicate equals filtering once. -/
theorem filter_twice {α : Type} (p : α → Bool) (l : List α) :
    (l.filter p).filter p = l.filter p := by
  rw [List.filter_filter]
  exact List.filter_congr (fun a _ => Bool.and_self (p a))

/-- The state an ideal cleanup produces is a fixed point of cleanup. -/
theorem cleanupUserToken_ideal_fix (s : Ideal) (now : Int) (u : String) :
    cleanupUserToken idealOps (cleanupUserToken idealOps s now u).1 now u =
      ((cleanupUserToken idealOps s now u).1, .ok ()) := by
  rw [cleanupUserToken_ideal, cleanupUserToken_ideal]
  simp [filter_twice]

/-- On the ideal client, a member of the user's index whose store record is
present resolves through `loadUserTokenCore` without touching the state. -/
theorem loadUserTokenCore_ideal_ok (s : Ideal) (u t : String)
    (hmem : ∃ e, e ∈ s.zs ∧ e.1 = getUserTokenKey u ∧ e.2.1 = t)
    (hkv : kvHas s.kv (getTokenKey t) = true) :
    ∃ v, kvGet s.kv (getTokenKey t) = some v ∧
      loadUserTokenCore idealOps s u t = (s, .ok { tokenString := t, tokenData := v }) := by
  obtain ⟨v, hv⟩ := Option.isSome_iff_exists.mp hkv
  refine ⟨v, hv, ?_⟩
  have hfind : (s.zs.find? (fun e => decide (e.1 = getUserTokenKey u ∧ e.2.1 = t))).isSome := by
    obtain ⟨e0, he0, hkey, ht⟩ := hmem
    exact List.find?_isSome.mpr ⟨e0, he0, by simp [hkey, ht]⟩
  obtain ⟨e1, he1⟩ := Option.isSome_iff_exists.mp hfind
  unfold loadUserTokenCore
  simp only [idealOps_zScore, idealZScore]
  rw [he1]
  simp only [loadToken, idealOps_get, idealGet]
  rw [hv]

/-- At a cleanup fixed point, the member loop of the list operation resolves
every member whose index entry and store record are present, changing no
state; every returned view's record is present. -/
theorem loadListLoop_ideal_fix (s : Ideal) (now : Int) (u : String)
    (hfix : cleanupUserToken idealOps s now u = (s, .ok ())) :
    ∀ toks : List String,
      (∀ t ∈ toks, (∃ e, e ∈ s.zs ∧ e.1 = getUserTokenKey u ∧ e.2.1 = t) ∧
        kvHas s.kv (getTokenKey t) = true) →
      ∀ (i : Nat) (acc : List bUserTokenInfo), ∃ l,
        loadListLoop idealOps (fun _ => now) u toks i s acc = (s, acc ++ l) ∧
        ∀ v ∈ l, kvHas s.kv (getTokenKey v.tokenString) = true := by
  intro toks
  induction toks with
  | nil => exact fun _ i acc => ⟨[], by simp [loadListLoop], by simp⟩
  | cons t rest ih =>
      intro hres i acc
      obtain ⟨hmem, hkv⟩ := hres t (by simp)
      obtain ⟨v, _hv, hcore⟩ := loadUserTokenCore_ideal_ok s u t hmem hkv
      have hload : loadUserToken idealOps s now u t =
          (s, .ok { tokenString := t, tokenData := v }) := by
        unfold loadUserToken
        rw [hfix]
        exact hcore
      obtain ⟨l, hl, hlkv⟩ := ih (fun t' ht' => hres t' (by simp [ht'])) (i + 1)
        (acc ++ [{ tokenString := t, tokenData := v }])
      refine ⟨{ tokenString := t, tokenData := v } :: l, ?_, ?_⟩
      · rw [loadListLoop, hload]
        show loadListLoop idealOps (fun _ => now) u rest (i + 1) s
            (acc ++ [{ tokenString := t, tokenData := v }]) = _
        rw [hl]
        simp
      · intro v' hv'
        rcases List.mem_cons.mp hv' with h | h
        · rw [h]
          exact hkv
        · exact hlkv v' h

/-- After an ideal cleanup the keyspace is untouched, and every surviving
entry of the user's index was already there, has its store record present
and its score outside `[0, now]`. -/
theorem cleanup_ideal_state_inv (s : Ideal) (now : Int) (u : String) :
    ((cleanupUserToken idealOps s now u).1).kv = s.kv ∧
    ∀ e, e ∈ ((cleanupUserToken idealOps s now u).1).zs → e ∈ s.zs ∧
      (e.1 = getUserTokenKey u →
        kvHas s.kv (getTokenKey e.2.1) = true ∧ ¬ (0 ≤ e.2.2 ∧ e.2.2 ≤ now)) := by
  rw [cleanupUserToken_ideal]
  refine ⟨rfl, ?_⟩
  intro e he
  replace he := List.mem_filter.mp he
  refine ⟨he.1, fun hk => ?_⟩
  have hkeep := he.2
  unfold cleanupKeep at hkeep
  rw [if_pos hk] at hkeep
  obtain ⟨h1, h2⟩ := Bool.and_eq_true_iff.mp hkeep
  exact ⟨h2, of_decide_eq_true h1⟩

/-! ## The claims -/

/-- Claim C5, counterexample: the fast path does not remove an entry with a
negative score even though that score is `≤ nowEpoch` — the call removes the
range `[0, nowEpoch]`, not every score `≤ nowEpoch`. -/
theorem removeExpiredByScore_negative_score_cex :
    removeExpiredByScore idealOps ⟨[], [("USER_TOKENS:u", "t", -1)]⟩ "u" 5 =
      (⟨[], [("USER_TOKENS:u", "t", -1)]⟩, .ok ()) ∧ (-1 : Int) ≤ 5 := by
  exact ⟨rfl, by decide⟩

/-- Claim C5 (amended): the fast path of reconciliation removes, in one call
and for every user, exactly the index entries of that user whose score lies
in `[0, nowEpoch]` (a negative score survives), and it does so without
consulting the token store: the keyspace is unchanged and the outcome does
not depend on it. -/
theorem removeExpiredByScore_exact_range (s : Ideal) (u : String) (now : Int) :
    (removeExpiredByScore idealOps s u now).2 = .ok () ∧
    ((removeExpiredByScore idealOps s u now).1).kv = s.kv ∧
    (∀ e : String × String × Int, e ∈ ((removeExpiredByScore idealOps s u now).1).zs ↔
      e ∈ s.zs ∧ ¬ (e.1 = getUserTokenKey u ∧ 0 ≤ e.2.2 ∧ e.2.2 ≤ now)) ∧
    (∀ kv2, ((removeExpiredByScore idealOps { kv := kv2, zs := s.zs } u now).1).zs =
      ((removeExpiredByScore idealOps s u now).1).zs) := by
  refine ⟨rfl, rfl, ?_, fun kv2 => rfl⟩
  intro e
  constructor
  · intro he
    replace he := List.mem_filter.mp he
    exact ⟨he.1, of_decide_eq_true he.2⟩
  · intro he
    exact List.mem_filter.mpr ⟨he.1, decide_eq_true he.2⟩

/-- Claim C4, counterexample: a successful direct `cleanupUserToken` at clock
`10` leaves an index entry with score `-3` in place (its store record exists,
so the slow path keeps it), and `-3` is not strictly greater than `10`. -/
theorem cleanupUserToken_negative_score_survives_cex :
    cleanupUserToken idealOps ⟨[("TOKENS:t", "v")], [("USER_TOKENS:u", "t", -3)]⟩ 10 "u" =
      (⟨[("TOKENS:t", "v")], [("USER_TOKENS:u", "t", -3)]⟩, .ok ()) ∧ ¬ ((-3 : Int) > 10) := by
  exact ⟨rfl, by decide⟩

/-- Claim C4 (amended): a direct `cleanupUserToken(userId)` on the ideal
client succeeds, and afterwards every token remaining in that user's index
has a score outside `[0, now]` (strictly greater than the cleanup-time clock,
or negative) and a store record that still exists; consequently a subsequent
`loadUserTokenList(userId)` performed at the same clock succeeds and every
member it returns has a currently-resolvable store record. -/
theorem cleanupUserToken_reconciles (s : Ideal) (now : Int) (u : String) :
    (cleanupUserToken idealOps s now u).2 = .ok () ∧
    (∀ e, e ∈ ((cleanupUserToken idealOps s now u).1).zs → e.1 = getUserTokenKey u →
      kvHas ((cleanupUserToken idealOps s now u).1).kv (getTokenKey e.2.1) = true ∧
      ¬ (0 ≤ e.2.2 ∧ e.2.2 ≤ now)) ∧
    (∃ l, loadUserTokenList idealOps (fun _ => now) (cleanupUserToken idealOps s now u).1 u =
      ((cleanupUserToken idealOps s now u).1, .ok l) ∧
      ∀ v ∈ l,
        kvHas ((cleanupUserToken idealOps s now u).1).kv (getTokenKey v.tokenString) = true) := by
  obtain ⟨hkv, hinv⟩ := cleanup_ideal_state_inv s now u
  refine ⟨by rw [cleanupUserToken_ideal], ?_, ?_⟩
  · intro e he hk
    rw [hkv]
    exact (hinv e he).2 hk
  · have hfix := cleanupUserToken_ideal_fix s now u
    unfold loadUserTokenList
    simp only [loadUserTokenListCore, idealOps_zRange, idealZRange]
    rw [hfix]
    have hres : ∀ t ∈ ((((cleanupUserToken idealOps s now u).1).zs.filter
          (fun e => decide (e.1 = getUserTokenKey u))).map (fun e => e.2.1)),
        (∃ e, e ∈ ((cleanupUserToken idealOps s now u).1).zs ∧
          e.1 = getUserTokenKey u ∧ e.2.1 = t) ∧
        kvHas ((cleanupUserToken idealOps s now u).1).kv (getTokenKey t) = true := by
      intro t ht
      obtain ⟨e, he, hteq⟩ := List.mem_map.mp ht
      obtain ⟨heA, hkey⟩ := List.mem_filter.mp he
      have hkeyP := of_decide_eq_true hkey
      refine ⟨⟨e, heA, hkeyP, hteq⟩, ?_⟩
      rw [hkv, ← hteq]
      exact ((hinv e heA).2 hkeyP).1
    obtain ⟨l, hl, hlkv⟩ := loadListLoop_ideal_fix (cleanupUserToken idealOps s now u).1 now u
      hfix _ hres 0 []
    refine ⟨l, ?_, fun v hv => hlkv v hv⟩
    rw [hl]
    simp

/-- Closed form of the spec-modelled `deleteUserToken` on the ideal client. -/
theorem deleteUserToken_ideal (s : Ideal) (u : String) (toks : List String) :
    deleteUserToken idealOps s u toks =
      ({ kv := s.kv.filter (fun p => decide (p.1 ∉ toks.map getTokenKey)),
         zs := s.zs.filter (fun e => decide (¬ (e.1 = getUserTokenKey u ∧ e.2.1 ∈ toks))) },
        .ok ()) := rfl

/-- Claim C8: `deleteUserToken` removes each given token from both the user's
index and the token store, never errors (in particular not on tokens absent
from either location), and is idempotent: a second identical invocation
leaves the state of the first and also succeeds. -/
theorem deleteUserToken_removes_both_idempotent (s : Ideal) (u : String) (toks : List String) :
    (deleteUserToken idealOps s u toks).2 = .ok () ∧
    (∀ t ∈ toks,
      kvHas ((deleteUserToken idealOps s u toks).1).kv (getTokenKey t) = false ∧
      ∀ e, e ∈ ((deleteUserToken idealOps s u toks).1).zs →
        e.1 = getUserTokenKey u → e.2.1 ≠ t) ∧
    deleteUserToken idealOps (deleteUserToken idealOps s u toks).1 u toks =
      ((deleteUserToken idealOps s u toks).1, .ok ()) := by
  refine ⟨by rw [deleteUserToken_ideal], ?_, ?_⟩
  · intro t ht
    rw [deleteUserToken_ideal]
    constructor
    · unfold kvHas kvGet
      rw [List.find?_eq_none.mpr ?_]
      · rfl
      · intro p hp
        have hpk := of_decide_eq_true (List.mem_filter.mp hp).2
        intro hcon
        exact hpk (of_decide_eq_true hcon ▸ List.mem_map.mpr ⟨t, ht, rfl⟩)
    · intro e he hk hcon
      have hz := of_decide_eq_true (List.mem_filter.mp he).2
      exact hz ⟨hk, hcon ▸ ht⟩
  · rw [deleteUserToken_ideal, deleteUserToken_ideal]
    simp [filter_twice]

/-- Claim C1: a `saveToken` collision (`created = false`) is never surfaced
by `saveUserToken`: the candidate is discarded, the state is carried into the
next iteration with the next generated candidate (first conjunct), and under
perpetual collisions the loop never returns at all — in particular it returns
no error — for any number of iterations (second conjunct). -/
theorem saveUserToken_collision_never_error (c : ClientOps σ) (clock : Nat → Int)
    (key : String) (gen : Nat → Except Err String) (value : String) (expiresIn : Int) :
    (∀ (fuel i : Nat) (s s1 : σ) (tok : String), gen i = .ok tok →
      saveToken c s tok value expiresIn = (s1, .ok false) →
      saveUserTokenLoop c clock key gen value expiresIn (fuel + 1) i s =
        saveUserTokenLoop c clock key gen value expiresIn fuel (i + 1) s1) ∧
    (∀ s : σ, (∀ i, ∃ tok, gen i = .ok tok ∧
        saveToken c s tok value expiresIn = (s, .ok false)) →
      ∀ fuel i, (saveUserTokenLoop c clock key gen value expiresIn fuel i s).2 = none) := by
  constructor
  · intro fuel i s s1 tok hg hs
    simp only [saveUserTokenLoop, hg, add_sub_cancel_left, hs]
    simp
  · intro s H fuel
    induction fuel with
    | zero => intro i; rfl
    | succ f ihf =>
        intro i
        obtain ⟨tok, hg, hs⟩ := H i
        simp only [saveUserTokenLoop, hg, add_sub_cancel_left, hs]
        exact ihf (i + 1)

/-- Claim C2, counterexample: the failure of the compensating rollback delete
is not reported anywhere.  Two runs of `saveUserToken` in which the index
insert fails — one where the rollback `Unlink` succeeds, one where it fails
with a backend error (with the same remote effect) — produce identical
output, state and result alike: the rollback failure leaves no observable
trace, while the claim says it is reported for observability. -/
theorem saveUserToken_rollback_failure_unobservable_cex :
    saveUserToken rollbackLostOps (fun _ => 0) 0 "u" (fun _ => .ok "t") "p" 5 1 ⟨[], []⟩ =
      saveUserToken zAddFailOps (fun _ => 0) 0 "u" (fun _ => .ok "t") "p" 5 1 ⟨[], []⟩ ∧
    rollbackLostOps.unlink ⟨[("TOKENS:t", "p")], []⟩ ["TOKENS:t"] ≠
      zAddFailOps.unlink ⟨[("TOKENS:t", "p")], []⟩ ["TOKENS:t"] := by
  refine ⟨rfl, fun hcon => ?_⟩
  exact Except.noConfusion (congrArg Prod.snd hcon)

/-- Claim C2 (amended): when the index insert fails after a successful store
create, the just-created store record is deleted (the state returned is the
one after the compensating `deleteToken`) and the index-insert failure is the
error returned; the rollback delete's own outcome is silently discarded — it
is not reported, and it never suppresses or replaces the returned error. -/
theorem saveUserToken_rollback_returns_insert_error (c : ClientOps σ) (clock : Nat → Int)
    (key : String) (gen : Nat → Except Err String) (value : String) (expiresIn : Int)
    (fuel i : Nat) (s s1 s2 : σ) (tok : String) (e : Err)
    (hg : gen i = .ok tok)
    (hs : saveToken c s tok value expiresIn = (s1, .ok true))
    (hz : c.zAdd s1 key tok (unixOf (clock i + expiresIn)) = (s2, .error e)) :
    saveUserTokenLoop c clock key gen value expiresIn (fuel + 1) i s =
      ((deleteToken c s2 [tok]).1, some (.error e)) := by
  simp only [saveUserTokenLoop, hg, add_sub_cancel_left, hs, hz]
  simp

/-- Witness for the amended C2 on a concrete run whose `ZAdd` fails. -/
theorem saveUserToken_rollback_returns_insert_error_witness :
    saveUserTokenLoop zAddFailOps (fun _ => 0) "USER_TOKENS:u" (fun _ => .ok "t") "p" 5 1 0
      ⟨[], []⟩ =
      ((deleteToken zAddFailOps ⟨[("TOKENS:t", "p")], []⟩ ["t"]).1,
        some (.error (.fail "zadd"))) :=
  saveUserToken_rollback_returns_insert_error zAddFailOps (fun _ => 0) "USER_TOKENS:u"
    (fun _ => .ok "t") "p" 5 0 0 ⟨[], []⟩ ⟨[("TOKENS:t", "p")], []⟩ ⟨[("TOKENS:t", "p")], []⟩
    "t" (.fail "zadd") rfl rfl rfl

/-- Claim C3: `loadUserToken` answers the same `ErrTokenNotFound` both when
the token is not a member of the user's index (first conjunct — and in that
case the state returned is the one after the store-level `deleteToken` of
that token, issued before returning) and when it is a member but the store
load answers `redis.Nil` (second conjunct). -/
theorem loadUserToken_notfound_uniform (c : ClientOps σ) (s : σ) (now : Int) (u t : String) :
    (∀ s2 : σ,
      c.zScore (cleanupUserToken c s now u).1 (getUserTokenKey u) t = (s2, .error .redisNil) →
      loadUserToken c s now u t = ((deleteToken c s2 [t]).1, .error .tokenNotFound)) ∧
    (∀ (s2 s3 : σ) (sc : Int),
      c.zScore (cleanupUserToken c s now u).1 (getUserTokenKey u) t = (s2, .ok sc) →
      c.get s2 (getTokenKey t) = (s3, .error .redisNil) →
      loadUserToken c s now u t = (s3, .error .tokenNotFound)) := by
  constructor
  · intro s2 hz
    simp only [loadUserToken, loadUserTokenCore, hz]
    simp
  · intro s2 s3 sc hz hget
    simp only [loadUserToken, loadUserTokenCore, loadToken, hz, hget]
    simp

/-- Claim C6: an error from the implicit reconciliation pass is swallowed —
`saveUserToken`, `loadUserToken` and `loadUserTokenList` all continue from
whatever state cleanup left, their outcome built exactly as if cleanup had
not erred (first three conjuncts) — while a direct `cleanupUserToken`
invocation returns the error to its caller (last conjunct). -/
theorem cleanup_best_effort (c : ClientOps σ) (s : σ) (now : Int) (u t : String)
    (clock : Nat → Int) (gen : Nat → Except Err String) (value : String) (expiresIn : Int)
    (fuel : Nat) (clocks : Nat → Int) (e : Err)
    (h : (cleanupUserToken c s now u).2 = .error e)
    (hc0 : clocks 0 = now) :
    saveUserToken c clock now u gen value expiresIn fuel s =
      saveUserTokenLoop c clock (getUserTokenKey u) gen value expiresIn fuel 0
        (cleanupUserToken c s now u).1 ∧
    loadUserToken c s now u t = loadUserTokenCore c (cleanupUserToken c s now u).1 u t ∧
    loadUserTokenList c clocks s u =
      loadUserTokenListCore c (fun i => clocks (i + 1)) (cleanupUserToken c s now u).1 u ∧
    cleanupUserToken c s now u = ((cleanupUserToken c s now u).1, .error e) := by
  refine ⟨rfl, rfl, ?_, ?_⟩
  · unfold loadUserTokenList
    rw [hc0]
  · exact Prod.ext rfl h

/-- Witness for C6 on a client whose cleanup fails at its first step. -/
theorem cleanup_best_effort_witness :
    (saveUserToken cleanupFailOps (fun _ => 0) 7 "u" (fun _ => .ok "t") "p" 5 0 ⟨[], []⟩ =
      saveUserTokenLoop cleanupFailOps (fun _ => 0) "USER_TOKENS:u" (fun _ => .ok "t") "p" 5 0 0
        (cleanupUserToken cleanupFailOps ⟨[], []⟩ 7 "u").1) ∧
    (loadUserToken cleanupFailOps ⟨[], []⟩ 7 "u" "t" =
      loadUserTokenCore cleanupFailOps (cleanupUserToken cleanupFailOps ⟨[], []⟩ 7 "u").1
        "u" "t") ∧
    (loadUserTokenList cleanupFailOps (fun _ => 7) ⟨[], []⟩ "u" =
      loadUserTokenListCore cleanupFailOps (fun i => (fun _ => (7 : Int)) (i + 1))
        (cleanupUserToken cleanupFailOps ⟨[], []⟩ 7 "u").1 "u") ∧
    cleanupUserToken cleanupFailOps ⟨[], []⟩ 7 "u" =
      ((cleanupUserToken cleanupFailOps ⟨[], []⟩ 7 "u").1, .error (.fail "zremrange")) :=
  cleanup_best_effort cleanupFailOps ⟨[], []⟩ 7 "u" "t" (fun _ => 0) (fun _ => .ok "t") "p" 5 0
    (fun _ => 7) (.fail "zremrange") rfl rfl

/-- Claim C7: the member loop of `loadUserTokenList` resolves each index
member via `loadUserToken`; a member whose resolution errors is skipped
while the loop continues from the resulting state (first conjunct), a member
that resolves contributes its view (second conjunct), and once the member
enumeration succeeded the whole call returns `.ok` with exactly the views
the loop accumulated, whatever happened to individual members (third
conjunct). -/
theorem loadUserTokenList_partial_success (c : ClientOps σ) (clocks : Nat → Int) (u : String) :
    (∀ (t : String) (rest : List String) (i : Nat) (s s1 : σ)
        (acc : List bUserTokenInfo) (e : Err),
      loadUserToken c s (clocks i) u t = (s1, .error e) →
      loadListLoop c clocks u (t :: rest) i s acc = loadListLoop c clocks u rest (i + 1) s1 acc) ∧
    (∀ (t : String) (rest : List String) (i : Nat) (s s1 : σ)
        (acc : List bUserTokenInfo) (info : bUserTokenInfo),
      loadUserToken c s (clocks i) u t = (s1, .ok info) →
      loadListLoop c clocks u (t :: rest) i s acc =
        loadListLoop c clocks u rest (i + 1) s1 (acc ++ [info])) ∧
    (∀ (s s1 : σ) (toks : List String),
      c.zRange s (getUserTokenKey u) = (s1, .ok toks) →
      loadUserTokenListCore c clocks s u =
        ((loadListLoop c clocks u toks 0 s1 []).1,
          .ok (loadListLoop c clocks u toks 0 s1 []).2)) := by
  refine ⟨?_, ?_, ?_⟩
  · intro t rest i s s1 acc e h
    rw [loadListLoop, h]
  · intro t rest i s s1 acc info h
    rw [loadListLoop, h]
  · intro s s1 toks h
    unfold loadUserTokenListCore
    rw [h]

/-- Claim C9: on the successful issuance path, `saveUserToken`'s loop calls
`saveToken` with exactly the requested TTL (`expire.Sub(now) = expiresIn`,
the hypothesis `hs` is stated at `expiresIn` itself) and inserts the index
entry scored at `now + expiresIn` as an absolute epoch timestamp
(`unixOf (clock i + expiresIn)`), with `now = clock i` read in the same
iteration as the store create. -/
theorem saveUserToken_ttl_score_exact (c : ClientOps σ) (clock : Nat → Int)
    (key : String) (gen : Nat → Except Err String) (value : String) (expiresIn : Int)
    (fuel i : Nat) (s s1 s2 : σ) (tok : String)
    (hg : gen i = .ok tok)
    (hs : saveToken c s tok value expiresIn = (s1, .ok true))
    (hz : c.zAdd s1 key tok (unixOf (clock i + expiresIn)) = (s2, .ok ())) :
    saveUserTokenLoop c clock key gen value expiresIn (fuel + 1) i s =
      (s2, some (.ok tok)) := by
  simp only [saveUserTokenLoop, hg, add_sub_cancel_left, hs, hz]
  simp

/-- Witness for C9: a concrete issuance at `now = 2s`, `ttl = 3s`
(nanoseconds), whose index entry is scored at epoch second `5`. -/
theorem saveUserToken_ttl_score_exact_witness :
    saveUserTokenLoop idealOps (fun _ => 2000000000) "USER_TOKENS:u" (fun _ => .ok "t") "p"
      3000000000 1 0 ⟨[], []⟩ =
      (⟨[("TOKENS:t", "p")], [("USER_TOKENS:u", "t", 5)]⟩, some (.ok "t")) :=
  saveUserToken_ttl_score_exact idealOps (fun _ => 2000000000) "USER_TOKENS:u"
    (fun _ => .ok "t") "p" 3000000000 0 0 ⟨[], []⟩ ⟨[("TOKENS:t", "p")], []⟩
    ⟨[("TOKENS:t", "p")], [("USER_TOKENS:u", "t", 5)]⟩ "t" rfl rfl rfl

/-- Inside `saveUserToken`'s loop, a generator error at iteration `j + n`
after `n` state-preserving collisions is returned as is, with the state of
loop entry. -/
theorem saveUserTokenLoop_gen_error (c : ClientOps σ) (clock : Nat → Int) (key : String)
    (gen : Nat → Except Err String) (value : String) (expiresIn : Int) (e : Err) :
    ∀ (n fuel j : Nat) (s : σ),
      (∀ m, m < n → ∃ tok, gen (j + m) = .ok tok ∧
        saveToken c s tok value expiresIn = (s, .ok false)) →
      gen (j + n) = .error e → n < fuel →
      saveUserTokenLoop c clock key gen value expiresIn fuel j s = (s, some (.error e)) := by
  intro n
  induction n with
  | zero =>
      intro fuel j s _hcol herr hfuel
      obtain ⟨f, rfl⟩ : ∃ f, fuel = f + 1 := ⟨fuel - 1, by omega⟩
      rw [Nat.add_zero] at herr
      simp only [saveUserTokenLoop, herr]
  | succ nn ih =>
      intro fuel j s hcol herr hfuel
      obtain ⟨f, rfl⟩ : ∃ f, fuel = f + 1 := ⟨fuel - 1, by omega⟩
      obtain ⟨tok, hg, hs⟩ := hcol 0 (Nat.succ_pos nn)
      rw [Nat.add_zero] at hg
      simp only [saveUserTokenLoop, hg, add_sub_cancel_left, hs]
      show saveUserTokenLoop c clock key gen value expiresIn f (j + 1) s = (s, some (.error e))
      refine ih f (j + 1) s ?_ ?_ (by omega)
      · intro m hm
        have hc := hcol (m + 1) (by omega)
        rwa [show j + (m + 1) = j + 1 + m by omega] at hc
      · rwa [show j + (nn + 1) = j + 1 + nn by omega] at herr

/-- Claim C10: if the generator fails at some iteration (after any number of
state-preserving collisions), `saveUserToken` returns that error at once,
and the state returned is exactly the post-cleanup state: the call created
no store record and inserted no index entry — its only effects are the
best-effort reconciliation's. -/
theorem saveUserToken_generator_error_no_effect (c : ClientOps σ) (clock : Nat → Int)
    (cleanupNow : Int) (u : String) (gen : Nat → Except Err String) (value : String)
    (expiresIn : Int) (e : Err) (n fuel : Nat) (s : σ)
    (hcol : ∀ m, m < n → ∃ tok, gen m = .ok tok ∧
      saveToken c (cleanupUserToken c s cleanupNow u).1 tok value expiresIn =
        ((cleanupUserToken c s cleanupNow u).1, .ok false))
    (herr : gen n = .error e) (hfuel : n < fuel) :
    saveUserToken c clock cleanupNow u gen value expiresIn fuel s =
      ((cleanupUserToken c s cleanupNow u).1, some (.error e)) := by
  unfold saveUserToken
  refine saveUserTokenLoop_gen_error c clock (getUserTokenKey u) gen value expiresIn e n fuel 0
    (cleanupUserToken c s cleanupNow u).1 ?_ (by simpa using herr) hfuel
  intro m hm
  simpa using hcol m hm

/-- Witness for C10: one collision, then a generator failure; the state
returned is the post-cleanup state, the error the generator's. -/
theorem saveUserToken_generator_error_no_effect_witness :
    saveUserToken idealOps (fun _ => 0) 3 "u" genOnceThenFail "p" 5 4 ⟨[("TOKENS:t", "v")], []⟩ =
      ((cleanupUserToken idealOps ⟨[("TOKENS:t", "v")], []⟩ 3 "u").1,
        some (.error (.gen "boom"))) :=
  saveUserToken_generator_error_no_effect idealOps (fun _ => 0) 3 "u" genOnceThenFail "p" 5
    (.gen "boom") 1 4 ⟨[("TOKENS:t", "v")], []⟩
    (fun m hm => by
      have hm0 : m = 0 := by omega
      subst hm0
      exact ⟨"t", rfl, rfl⟩)
    rfl (by omega)

end TokenManager
